import Mathlib

/-! couchdb-mobx: query dispatch and document lifecycle of `Store` / `Model`

A shallow embedding of `src/lib/index.js`.

* JavaScript values are the inductive type `JSValue`. Numbers are integers, a function
  is identified by its source text, and an object is identified with its list of
  bindings, so that `===` on rows is equality of representations.
* A mapping is a list of bindings in which a later binding of a key shadows an earlier
  one, as in an object literal; `Fields.set` writes a property and `Fields.assign` is
  `Object.assign`.
* The database handle and the custom query functions are external: `Env` gives, for
  every call, the state in which the returned promise settles, and every operation
  reports the calls it made, in order. A promise chain is evaluated up to settlement.
* The observable runtime (`observable`, `action`, `extendObservable`, `toJS`) is plain
  field storage: a `Model` instance is the mapping of its enumerable fields. Field
  names that collide with members of `Model` itself are outside the embedding.
-/

set_option autoImplicit false

namespace CouchdbMobx

/-! ## Values -/

/-- JavaScript values as far as `Store` and `Model` inspect them. -/
inductive JSValue where
  | undefined
  | null
  | bool (b : Bool)
  | number (n : Int)
  | string (s : String)
  | array (items : List JSValue)
  | object (fields : List (String × JSValue))
  | function (source : String)

/-- Mappings from property names to values (plain objects, documents, option bags). -/
abbrev Fields := List (String × JSValue)

mutual
/-- Decidable equality of values. -/
def JSValue.decEq : (a b : JSValue) → Decidable (a = b)
  | .undefined, .undefined => isTrue rfl
  | .null, .null => isTrue rfl
  | .bool a, .bool b =>
    if h : a = b then isTrue (by rw [h]) else isFalse (by intro h2; cases h2; exact h rfl)
  | .number a, .number b =>
    if h : a = b then isTrue (by rw [h]) else isFalse (by intro h2; cases h2; exact h rfl)
  | .string a, .string b =>
    if h : a = b then isTrue (by rw [h]) else isFalse (by intro h2; cases h2; exact h rfl)
  | .function a, .function b =>
    if h : a = b then isTrue (by rw [h]) else isFalse (by intro h2; cases h2; exact h rfl)
  | .array a, .array b =>
    match JSValue.decEqList a b with
    | isTrue h => isTrue (by rw [h])
    | isFalse h => isFalse (by intro h2; cases h2; exact h rfl)
  | .object a, .object b =>
    match JSValue.decEqFields a b with
    | isTrue h => isTrue (by rw [h])
    | isFalse h => isFalse (by intro h2; cases h2; exact h rfl)
  | .undefined, .null | .undefined, .bool _ | .undefined, .number _ | .undefined, .string _
  | .undefined, .array _ | .undefined, .object _ | .undefined, .function _ =>
    isFalse (by intro h; cases h)
  | .null, .undefined | .null, .bool _ | .null, .number _ | .null, .string _
  | .null, .array _ | .null, .object _ | .null, .function _ =>
    isFalse (by intro h; cases h)
  | .bool _, .undefined | .bool _, .null | .bool _, .number _ | .bool _, .string _
  | .bool _, .array _ | .bool _, .object _ | .bool _, .function _ =>
    isFalse (by intro h; cases h)
  | .number _, .undefined | .number _, .null | .number _, .bool _ | .number _, .string _
  | .number _, .array _ | .number _, .object _ | .number _, .function _ =>
    isFalse (by intro h; cases h)
  | .string _, .undefined | .string _, .null | .string _, .bool _ | .string _, .number _
  | .string _, .array _ | .string _, .object _ | .string _, .function _ =>
    isFalse (by intro h; cases h)
  | .array _, .undefined | .array _, .null | .array _, .bool _ | .array _, .number _
  | .array _, .string _ | .array _, .object _ | .array _, .function _ =>
    isFalse (by intro h; cases h)
  | .object _, .undefined | .object _, .null | .object _, .bool _ | .object _, .number _
  | .object _, .string _ | .object _, .array _ | .object _, .function _ =>
    isFalse (by intro h; cases h)
  | .function _, .undefined | .function _, .null | .function _, .bool _
  | .function _, .number _ | .function _, .string _ | .function _, .array _
  | .function _, .object _ =>
    isFalse (by intro h; cases h)
/-- Decidable equality of arrays of values. -/
def JSValue.decEqList : (a b : List JSValue) → Decidable (a = b)
  | [], [] => isTrue rfl
  | [], _ :: _ => isFalse (by intro h; cases h)
  | _ :: _, [] => isFalse (by intro h; cases h)
  | x :: xs, y :: ys =>
    match JSValue.decEq x y, JSValue.decEqList xs ys with
    | isTrue h1, isTrue h2 => isTrue (by rw [h1, h2])
    | isFalse h1, _ => isFalse (by intro h; cases h; exact h1 rfl)
    | _, isFalse h2 => isFalse (by intro h; cases h; exact h2 rfl)
/-- Decidable equality of binding lists. -/
def JSValue.decEqFields : (a b : List (String × JSValue)) → Decidable (a = b)
  | [], [] => isTrue rfl
  | [], _ :: _ => isFalse (by intro h; cases h)
  | _ :: _, [] => isFalse (by intro h; cases h)
  | (k, x) :: xs, (l, y) :: ys =>
    if hk : k = l then
      match JSValue.decEq x y, JSValue.decEqFields xs ys with
      | isTrue h1, isTrue h2 => isTrue (by rw [hk, h1, h2])
      | isFalse h1, _ => isFalse (by intro h; cases h; exact h1 rfl)
      | _, isFalse h2 => isFalse (by intro h; cases h; exact h2 rfl)
    else isFalse (by intro h; cases h; exact hk rfl)
end

instance : DecidableEq JSValue := JSValue.decEq

/-- The `typeof` operator. -/
def typeOf : JSValue → String
  | .undefined => "undefined"
  | .null => "object"
  | .bool _ => "boolean"
  | .number _ => "number"
  | .string _ => "string"
  | .array _ => "object"
  | .object _ => "object"
  | .function _ => "function"

/-- The test `Array.isArray`. -/
def isArray : JSValue → Bool
  | .array _ => true
  | _ => false

/-- Truthiness: what `!v` negates. -/
def truthy : JSValue → Bool
  | .undefined => false
  | .null => false
  | .bool b => b
  | .number n => n != 0
  | .string s => s != ""
  | .array _ => true
  | .object _ => true
  | .function _ => true

mutual
/-- String conversion, as performed by a template literal. -/
def JSValue.toStr : JSValue → String
  | .undefined => "undefined"
  | .null => "null"
  | .bool b => if b then "true" else "false"
  | .number n => toString n
  | .string s => s
  | .array items => String.intercalate "," (JSValue.joinParts items)
  | .object _ => "[object Object]"
  | .function source => source
/-- The pieces that `Array.prototype.join` puts together: empty for undefined and null. -/
def JSValue.joinParts : List JSValue → List String
  | [] => []
  | .undefined :: rest => "" :: JSValue.joinParts rest
  | .null :: rest => "" :: JSValue.joinParts rest
  | x :: rest => JSValue.toStr x :: JSValue.joinParts rest
end

/-! ## Mappings -/

/-- The binding of `key`, if any: the last one in the list. -/
def Fields.lookup (key : String) : Fields → Option JSValue
  | [] => none
  | (k, v) :: rest =>
    match Fields.lookup key rest with
    | some w => some w
    | none => if k = key then some v else none

/-- Property read `m[key]`: undefined when there is no binding. -/
def Fields.get (m : Fields) (key : String) : JSValue :=
  (Fields.lookup key m).getD .undefined

/-- Property write `m[key] = v`: overwrites the binding in place, or adds it at the end. -/
def Fields.set (m : Fields) (key : String) (v : JSValue) : Fields :=
  if m.any (fun kv => kv.1 == key) then
    m.map (fun kv => if kv.1 = key then (key, v) else kv)
  else m ++ [(key, v)]

/-- The call `Object.assign(target, source)` on mappings: every binding of `source`
is written into `target`, in order. -/
def Fields.assign (target source : Fields) : Fields :=
  source.foldl (fun acc kv => Fields.set acc kv.1 kv.2) target

/-- Own enumerable properties of a value, as `Object.assign` reads them from a source. -/
def ownEntries : JSValue → Fields
  | .object fields => fields
  | .array items => items.enum.map (fun p => (toString p.1, p.2))
  | .string s => s.toList.enum.map (fun p => (toString p.1, JSValue.string (String.singleton p.2)))
  | _ => []

/-! ## Errors, promises and the environment -/

/-- Exceptions and rejection reasons. -/
inductive Err where
  /-- An error made by `new Error(message)`. -/
  | error (message : String)
  /-- A `TypeError` of the runtime. -/
  | typeError
  /-- A failure reported by the database or by a custom query function. -/
  | external (reason : JSValue)
  deriving DecidableEq

/-- Failure `NoQueryBackend` of the dispatcher. -/
def NoQueryBackend : Err := .error "No Query Backend for req!"

/-- Failure `InvalidArgument` of `createDocument` and `updateDocument`. -/
def NoDocument : Err := .error "不存在文档对象!"

/-- Failure `MissingRevision` of `updateDocument`. -/
def MissingRevision : Err := .error "文档格式不合法，缺少_rev或_id属性！"

/-- Failure `InvalidArgument` of `deleteDocument`. -/
def InvalidArgument : Err := .error "update a document need _id and _rev properties!"

/-- Failure `ValidationFailure` of `save`. -/
def ValidationFailure : Err := .error "Validate Failure!"

/-- A promise, by the state in which it settles. -/
inductive Settled where
  | fulfilled (value : JSValue)
  | rejected (reason : Err)
  deriving DecidableEq

/-- How a call ends: it throws synchronously, returns a plain value, or returns a promise. -/
inductive Completion where
  | threw (e : Err)
  | value (v : JSValue)
  | promise (p : Settled)
  deriving DecidableEq

/-- Calls that leave the Store: the methods of the database handle, and the invocation
`f(db, options)` of a custom query function with source `f`. -/
inductive Call where
  | get (id options : JSValue)
  | put (doc : Fields)
  | remove (id rev : JSValue)
  | find (selector options : JSValue)
  | query (view options : JSValue)
  | allDocs (opts : Fields)
  | changes (opts : Fields)
  | custom (f : String) (options : JSValue)
  deriving DecidableEq

/-- The promise a method of the database returns, by the state in which it settles; the
reason of a rejection is a value of the database. -/
inductive Reply where
  | fulfilled (value : JSValue)
  | rejected (reason : JSValue)
  deriving DecidableEq

/-- The promise as the Store sees it. -/
def Reply.settle : Reply → Settled
  | .fulfilled value => .fulfilled value
  | .rejected reason => .rejected (.external reason)

/-- The database handle: the promise each method call returns. -/
abbrev Database := Call → Reply

/-- Everything outside the Store. -/
structure Env where
  /-- The database handle `this.db`. -/
  db : Database
  /-- What a custom query function with the given source does with `(db, options)`. -/
  fn : String → JSValue → Completion
  /-- Successive readings of `new Date().getTime()`. -/
  now : Nat → Nat

/-- What `handleQueryRequest` did: the calls it made and how it ended. -/
structure Dispatch where
  calls : List Call
  result : Completion
  deriving DecidableEq

/-! ## Query strategies -/

/-- Element read `v[i]`; undefined and null have no properties. -/
def index (v : JSValue) (i : Nat) : Except Err JSValue :=
  match v with
  | .undefined => .error .typeError
  | .null => .error .typeError
  | .array items => .ok (items.getD i .undefined)
  | .string s =>
    .ok (match s.toList.get? i with
      | some c => .string (String.singleton c)
      | none => .undefined)
  | .object fields => .ok (Fields.get fields (toString i))
  | _ => .ok .undefined

/-- Source `doMongoQuery(db, selector, options)`. -/
def doMongoQuery (db : Database) (selector options : JSValue) : Dispatch :=
  ⟨[.find selector options], .promise (db (.find selector options)).settle⟩

/-- Source `doMapReduceQuery(db, view, options)`. -/
def doMapReduceQuery (db : Database) (view options : JSValue) : Dispatch :=
  ⟨[.query view options], .promise (db (.query view options)).settle⟩

/-- Source `getAllDocs(db, range, options)`. -/
def getAllDocs (db : Database) (range options : JSValue) : Dispatch :=
  match index range 0, index range 1 with
  | .ok startkey, .ok endkey =>
    let opts : Fields := [("startkey", startkey), ("endkey", endkey)]
    let opts := Fields.assign opts (ownEntries options)
    ⟨[.allDocs opts], .promise (db (.allDocs opts)).settle⟩
  | .error e, _ => ⟨[], .threw e⟩
  | _, .error e => ⟨[], .threw e⟩

/-- Source `getChangedDocs(db, since = 0, options = {})`. -/
def getChangedDocs (db : Database) (since options : JSValue) : Dispatch :=
  let since := if since = .undefined then .number 0 else since
  let options := if options = .undefined then .object [] else options
  let opts := Fields.assign [("since", since)] (ownEntries options)
  ⟨[.changes opts], .promise (db (.changes opts)).settle⟩

/-- The table `reqTypes` of `handleQueryRequest`. -/
def reqTypes : List (String × (Database → JSValue → JSValue → Dispatch)) :=
  [("string", doMapReduceQuery),
   ("array", getAllDocs),
   ("number", getChangedDocs),
   ("object", doMongoQuery)]

/-- Source `Store.handleQueryRequest(req, options)`. The test `Reflect.has(reqTypes, qt)`
is a lookup in the table: no result of `typeof` names an inherited property. -/
def handleQueryRequest (env : Env) (req options : JSValue) : Dispatch :=
  let qt := typeOf req
  match reqTypes.lookup qt with
  | some strategy => strategy env.db req options
  | none =>
    if isArray req then getAllDocs env.db req options
    else
      match req with
      | .function f => ⟨[.custom f options], env.fn f options⟩
      | _ => ⟨[], .promise (.rejected NoQueryBackend)⟩

/-! ## Model -/

/-- A model class: the static `docType` and the hooks that a subclass overrides. The
hook `perform_update` edits the outgoing document, `validate` accepts or refuses it. -/
structure ModelClass where
  docType : String
  perform_update : Fields → Fields
  validate : Fields → Bool

/-- The class `Model`: `docType` is `JSON`, `perform_update` does nothing and `validate`
accepts everything. -/
def Model : ModelClass := ⟨"JSON", fun doc => doc, fun _ => true⟩

/-- Source `Model.generateId()`, with `time` the reading of the clock. -/
def generateId (cls : ModelClass) (time : Nat) (self : Fields) : String :=
  let docType :=
    if truthy (Fields.get self "type") then (Fields.get self "type").toStr else cls.docType
  docType ++ "-" ++ toString time

/-- Property read `res.rev` on the response of `put`. -/
def readRev : JSValue → Except Err JSValue
  | .undefined => .error .typeError
  | .null => .error .typeError
  | .object fields => .ok (Fields.get fields "rev")
  | _ => .ok .undefined

/-- What `save` did: the fields of the instance afterwards, the calls, the returned promise. -/
structure Saved where
  self : Fields
  calls : List Call
  result : Settled

/-- The first two statements of `Model.save()`: a missing `_id` is generated and a
missing `timestamp` is read from the clock. -/
def assignIdAndTimestamp (cls : ModelClass) (env : Env) (self : Fields) : Fields :=
  let noId := !truthy (Fields.get self "_id")
  let self :=
    if noId then Fields.set self "_id" (.string (generateId cls (env.now 0) self)) else self
  let reads := if noId then 1 else 0
  if !truthy (Fields.get self "timestamp") then
    Fields.set self "timestamp" (.number (env.now reads))
  else self

/-- Source `Model.save()` on an instance of class `cls` with fields `self`. -/
def save (cls : ModelClass) (env : Env) (self : Fields) : Saved :=
  let self := assignIdAndTimestamp cls env self
  let doc := cls.perform_update self
  if cls.validate doc then
    match env.db (.put doc) with
    | .fulfilled res =>
      match readRev res with
      | .ok rev => ⟨Fields.set self "_rev" rev, [.put doc], .fulfilled .undefined⟩
      | .error e => ⟨self, [.put doc], .rejected e⟩
    | .rejected reason => ⟨self, [.put doc], .rejected (.external reason)⟩
  else ⟨self, [], .rejected ValidationFailure⟩

/-! ## Store -/

/-- The observable `pagination` of a Store. -/
structure Pagination where
  startKey : String
  size : Nat
  current : Nat
  count : Nat
  deriving DecidableEq

/-- State of a `Store`. The current document `doc` is the mapping of the fields of a
`Model` instance, or nothing for `null`. -/
structure Store where
  model_cls : Option ModelClass
  docType : String
  meta : JSValue
  queryset : List JSValue
  isLoading : Bool
  pagination : Pagination
  selectRows : List JSValue
  doc : Option Fields

/-- Source `new Store(db, model, meta)`: `model` is a docType string or a model class. -/
def Store.construct (model : String ⊕ ModelClass) (meta : JSValue) : Store :=
  { model_cls := match model with
      | .inl _ => none
      | .inr cls => some cls
    docType := match model with
      | .inl docType => docType
      | .inr cls => cls.docType
    meta := meta
    queryset := []
    isLoading := false
    pagination := ⟨"", 30, 0, 1⟩
    selectRows := []
    doc := none }

/-- What an operation of the Store did: the Store once the promise chain of the
operation has settled, the calls made, and how the operation ended. -/
structure Run where
  store : Store
  calls : List Call
  outcome : Completion

/-- Source `Store.getQueryset(req, options)`. A plain value returned by a custom query
function has no `then`. The rejection rethrown by the final `catch` reaches nobody. -/
def getQueryset (env : Env) (store : Store) (req options : JSValue) : Run :=
  let store := { store with isLoading := true }
  let d := handleQueryRequest env req options
  match d.result with
  | .threw e => ⟨store, d.calls, .threw e⟩
  | .value _ => ⟨store, d.calls, .threw .typeError⟩
  | .promise (.fulfilled rows) =>
    let queryset : List JSValue := []
    let queryset :=
      match rows with
      | .array items => items.foldl (fun acc row => acc ++ [row]) queryset
      | _ => queryset
    ⟨{ store with queryset := queryset, isLoading := false }, d.calls, .value .undefined⟩
  | .promise (.rejected _) => ⟨store, d.calls, .value .undefined⟩

/-- Settles `docObj.save().then(action(() => this.doc = docObj)).catch(...)`. -/
def saveAsCurrent (env : Env) (store : Store) (docObj : Fields) : Run :=
  let cls := store.model_cls.getD Model
  let saved := save cls env docObj
  match saved.result with
  | .fulfilled _ =>
    ⟨{ store with doc := some saved.self }, saved.calls,
      .promise (.fulfilled (.object saved.self))⟩
  | .rejected e => ⟨store, saved.calls, .promise (.rejected e)⟩

/-- Source `Store.createDocument(doc)`, with `doc` absent or a mapping. -/
def createDocument (env : Env) (store : Store) (doc : Option Fields) : Run :=
  match doc with
  | none => ⟨store, [], .threw NoDocument⟩
  | some doc =>
    let doc :=
      if !truthy (Fields.get doc "type") then Fields.set doc "type" (.string store.docType)
      else doc
    saveAsCurrent env store doc

/-- Source `Store.updateDocument(doc)`, with `doc` absent or a mapping. -/
def updateDocument (env : Env) (store : Store) (doc : Option Fields) : Run :=
  match doc with
  | none => ⟨store, [], .threw NoDocument⟩
  | some doc =>
    let updateDoc : Fields :=
      match store.doc with
      | some current => current
      | none => []
    let updateDoc := Fields.assign updateDoc doc
    if !truthy (Fields.get updateDoc "_id") || !truthy (Fields.get updateDoc "_rev") then
      ⟨store, [], .threw MissingRevision⟩
    else saveAsCurrent env store updateDoc

/-- Source `Store.deleteDocument(doc)`, with `doc` absent or a mapping. -/
def deleteDocument (env : Env) (store : Store) (doc : Option Fields) : Run :=
  match doc with
  | none => ⟨store, [], .threw InvalidArgument⟩
  | some doc =>
    if !truthy (Fields.get doc "_id") || !truthy (Fields.get doc "_rev") then
      ⟨store, [], .threw InvalidArgument⟩
    else
      let call := Call.remove (Fields.get doc "_id") (Fields.get doc "_rev")
      match env.db call with
      | .fulfilled _ => ⟨{ store with doc := none }, [call], .promise (.fulfilled .undefined)⟩
      | .rejected reason => ⟨store, [call], .promise (.rejected (.external reason))⟩

/-- Element read `this.queryset[index]` for a numeric `index`; anything else names no
element. -/
def element (queryset : List JSValue) : JSValue → JSValue
  | .number n => if 0 ≤ n then queryset.getD n.toNat .undefined else .undefined
  | _ => .undefined

/-- Source `Store.selectRow(index)`. -/
def selectRow (store : Store) (index : JSValue) : Store :=
  { store with selectRows := store.selectRows ++ [element store.queryset index] }

/-- Source `Store.unSelectRow(index)`; a call without argument has `index` undefined. -/
def unSelectRow (store : Store) (index : JSValue) : Store :=
  if index = .string "undefined" then { store with selectRows := [] }
  else
    let row := element store.queryset index
    if truthy row then { store with selectRows := store.selectRows.erase row } else store

/-- A call of `selectRow` or of `unSelectRow`. -/
inductive RowCall where
  | selectRow (index : JSValue)
  | unSelectRow (index : JSValue)
  deriving DecidableEq

/-- Performs one call on the Store. -/
def RowCall.run (store : Store) : RowCall → Store
  | .selectRow index => CouchdbMobx.selectRow store index
  | .unSelectRow index => CouchdbMobx.unSelectRow store index

/-- Performs a sequence of calls, first to last. -/
def runCalls (store : Store) (calls : List RowCall) : Store :=
  calls.foldl RowCall.run store

/-- The operation failed with `e`: it threw `e`, or its promise was rejected with `e`. -/
def Run.failsWith (run : Run) (e : Err) : Prop :=
  run.outcome = .threw e ∨ run.outcome = .promise (.rejected e)

/-- Every `selectRow` of the sequence is called for a row that `selectRows` does not
hold at that moment. -/
def selectsOnlyUnselected (store : Store) : List RowCall → Bool
  | [] => true
  | .selectRow index :: rest =>
    !(store.selectRows.contains (element store.queryset index))
      && selectsOnlyUnselected (selectRow store index) rest
  | .unSelectRow index :: rest => selectsOnlyUnselected (unSelectRow store index) rest

/-! ## A sample environment -/

/-- Two rows, as a view or a range scan lists them. -/
def sampleRows : List JSValue :=
  [.object [("id", .string "test-1"), ("key", .string "test-1")],
   .object [("id", .string "test-2"), ("key", .string "test-2")]]

/-- A database that accepts every write, with revision `1-967a` for a document without
`_rev` and `2-7051c` for one with `_rev`, and answers every query with an object holding
`sampleRows`; the custom query functions resolve to the bare array of rows; the clock
starts at 1500000000000 and advances by one per reading. -/
def sampleEnv : Env :=
  { db := fun call =>
      match call with
      | .put doc =>
        .fulfilled (.object [("ok", .bool true), ("id", Fields.get doc "_id"),
          ("rev", .string (if truthy (Fields.get doc "_rev") then "2-7051c" else "1-967a"))])
      | .remove _ _ => .fulfilled (.object [("ok", .bool true)])
      | .get _ _ => .rejected (.object [("status", .number 404)])
      | _ => .fulfilled (.object [("rows", .array sampleRows)])
    fn := fun _ _ => .promise (.fulfilled (.array sampleRows))
    now := fun reads => 1500000000000 + reads }

/-- A freshly constructed Store for documents of type `test`. -/
def sampleStore : Store := Store.construct (.inl "test") .null

/-- The fields given to `createDocument` in the test of the repository. -/
def sampleFields : Fields :=
  [("trans_no", .string "223458"), ("trans_amount", .number 13460)]

/-- The sample Store holding a saved document as its current doc. -/
def savedStore : Store :=
  { sampleStore with
    doc := some [("trans_no", .string "223458"), ("trans_amount", .number 13460),
      ("type", .string "test"), ("_id", .string "test-1500000000000"),
      ("timestamp", .number 1500000000001), ("_rev", .string "1-967a")] }

/-- The fields given to `updateDocument` in the test of the repository. -/
def sampleUpdate : Fields :=
  [("_id", .string "test-1500000000000"), ("_rev", .string "1-967a"),
   ("trans_amount", .number 3333)]

/-- The sample Store after a query with a custom strategy has filled its queryset. -/
def loadedStore : Store :=
  (getQueryset sampleEnv sampleStore (.function "(db, options) => rows") .undefined).store

/-! ## Theorems -/

/-- Claim C1, as the code behaves: a two-element array has `typeof` equal to `object`, so
the table lookup sends it to `doMongoQuery`; the only call is `find(request, options)`,
and `allDocs` is not called. -/
theorem handleQueryRequest_pair_calls_find (env : Env) (startKey endKey : JSValue)
    (options : Fields) :
    handleQueryRequest env (.array [startKey, endKey]) (.object options)
      = ⟨[.find (.array [startKey, endKey]) (.object options)],
         .promise (env.db (.find (.array [startKey, endKey]) (.object options))).settle⟩ := by
  rfl



/-! ### Mappings -/

theorem Fields.lookup_append_single_self (m : Fields) (key : String) (v : JSValue) :
    Fields.lookup key (m ++ [(key, v)]) = some v := by
  induction m with
  | nil => simp [Fields.lookup]
  | cons kv rest ih =>
    obtain ⟨k, w⟩ := kv
    simp [Fields.lookup, ih]

theorem Fields.lookup_append_single_ne (m : Fields) (key other : String) (v : JSValue)
    (h : other ≠ key) :
    Fields.lookup other (m ++ [(key, v)]) = Fields.lookup other m := by
  induction m with
  | nil => simp [Fields.lookup, h.symm]
  | cons kv rest ih =>
    obtain ⟨k, w⟩ := kv
    simp [Fields.lookup, ih]

theorem Fields.lookup_map_self (m : Fields) (key : String) (v : JSValue) :
    Fields.lookup key (m.map (fun kv => if kv.1 = key then (key, v) else kv))
      = (Fields.lookup key m).map (fun _ => v) := by
  induction m with
  | nil => simp [Fields.lookup]
  | cons kv rest ih =>
    obtain ⟨k, w⟩ := kv
    rw [List.map_cons]
    by_cases hk : k = key
    · have e : (if (k, w).1 = key then (key, v) else (k, w)) = (key, v) := if_pos hk
      rw [e]
      cases hrest : Fields.lookup key rest <;> simp [hk, Fields.lookup, ih, hrest]
    · have e : (if (k, w).1 = key then (key, v) else (k, w)) = (k, w) := if_neg hk
      rw [e]
      cases hrest : Fields.lookup key rest <;> simp [hk, Fields.lookup, ih, hrest]

theorem Fields.lookup_map_ne (m : Fields) (key other : String) (v : JSValue)
    (h : other ≠ key) :
    Fields.lookup other (m.map (fun kv => if kv.1 = key then (key, v) else kv))
      = Fields.lookup other m := by
  induction m with
  | nil => simp [Fields.lookup]
  | cons kv rest ih =>
    obtain ⟨k, w⟩ := kv
    rw [List.map_cons]
    by_cases hk : k = key
    · have e : (if (k, w).1 = key then (key, v) else (k, w)) = (key, v) := if_pos hk
      have hne : ¬ key = other := fun e => h e.symm
      rw [e]
      cases hrest : Fields.lookup other rest <;> simp [hk, Fields.lookup, ih, hrest, hne]
    · have e : (if (k, w).1 = key then (key, v) else (k, w)) = (k, w) := if_neg hk
      rw [e]
      cases hrest : Fields.lookup other rest <;> simp [hk, Fields.lookup, ih, hrest]

theorem Fields.lookup_eq_none_of_not_any (m : Fields) (key : String)
    (h : m.any (fun kv => kv.1 == key) = false) : Fields.lookup key m = none := by
  induction m with
  | nil => simp [Fields.lookup]
  | cons kv rest ih =>
    obtain ⟨k, w⟩ := kv
    simp only [List.any_cons, Bool.or_eq_false_iff, beq_eq_false_iff_ne] at h
    simp [Fields.lookup, ih h.2, h.1]

theorem Fields.lookup_isSome_of_any (m : Fields) (key : String)
    (h : m.any (fun kv => kv.1 == key) = true) : ∃ w, Fields.lookup key m = some w := by
  induction m with
  | nil => simp at h
  | cons kv rest ih =>
    obtain ⟨k, w⟩ := kv
    simp only [Fields.lookup]
    cases hrest : Fields.lookup key rest with
    | some u => exact ⟨u, rfl⟩
    | none =>
      by_cases hk : k = key
      · exact ⟨w, by simp [hk]⟩
      · exfalso
        simp only [List.any_cons, Bool.or_eq_true, beq_iff_eq] at h
        rcases h with h | h
        · exact hk h
        · obtain ⟨u, hu⟩ := ih h
          rw [hrest] at hu
          cases hu

theorem Fields.lookup_set_self (m : Fields) (key : String) (v : JSValue) :
    Fields.lookup key (Fields.set m key v) = some v := by
  unfold Fields.set
  cases hany : m.any (fun kv => kv.1 == key) with
  | true =>
    obtain ⟨w, hw⟩ := Fields.lookup_isSome_of_any m key hany
    simp [Fields.lookup_map_self, hw]
  | false => simp [Fields.lookup_append_single_self]

theorem Fields.lookup_set_ne (m : Fields) (key other : String) (v : JSValue)
    (h : other ≠ key) :
    Fields.lookup other (Fields.set m key v) = Fields.lookup other m := by
  unfold Fields.set
  cases hany : m.any (fun kv => kv.1 == key) with
  | true => simp [Fields.lookup_map_ne m key other v h]
  | false => simp [Fields.lookup_append_single_ne m key other v h]

theorem Fields.get_set_self (m : Fields) (key : String) (v : JSValue) :
    Fields.get (Fields.set m key v) key = v := by
  simp [Fields.get, Fields.lookup_set_self]

theorem Fields.get_set_ne (m : Fields) (key other : String) (v : JSValue)
    (h : other ≠ key) :
    Fields.get (Fields.set m key v) other = Fields.get m other := by
  simp [Fields.get, Fields.lookup_set_ne m key other v h]

theorem Fields.lookup_assign (target source : Fields) (key : String) :
    Fields.lookup key (Fields.assign target source)
      = match Fields.lookup key source with
        | some w => some w
        | none => Fields.lookup key target := by
  unfold Fields.assign
  induction source generalizing target with
  | nil => simp [Fields.lookup]
  | cons kv rest ih =>
    obtain ⟨k, w⟩ := kv
    simp only [List.foldl_cons, ih, Fields.lookup]
    cases hrest : Fields.lookup key rest with
    | some u => simp
    | none =>
      by_cases hk : k = key
      · subst hk
        simp [Fields.lookup_set_self]
      · have hne : key ≠ k := fun h => hk h.symm
        simp [hk, Fields.lookup_set_ne target k key w hne]

theorem Fields.get_assign (target source : Fields) (key : String) :
    Fields.get (Fields.assign target source) key
      = match Fields.lookup key source with
        | some w => w
        | none => Fields.get target key := by
  simp only [Fields.get, Fields.lookup_assign]
  cases Fields.lookup key source <;> simp

/-! ### Query dispatch -/

/-- The strategy `getAllDocs` itself, were it reached with a two-element array, calls
`allDocs` once with `startkey` and `endkey` overlaid by the options. -/
theorem getAllDocs_pair (db : Database) (startKey endKey : JSValue) (options : Fields) :
    getAllDocs db (.array [startKey, endKey]) (.object options)
      = ⟨[.allDocs (Fields.assign [("startkey", startKey), ("endkey", endKey)] options)],
         .promise (db (.allDocs
           (Fields.assign [("startkey", startKey), ("endkey", endKey)] options))).settle⟩ := by
  rfl

/-- Claim C2, refuted as stated: null, and an array of three values, are none of the
listed shapes, yet `handleQueryRequest` calls `find` with them and returns the promise
of `find` instead of a rejection with `NoQueryBackend`. -/
theorem handleQueryRequest_null_and_triple_reach_find :
    (handleQueryRequest sampleEnv .null (.object [])).calls = [.find .null (.object [])]
    ∧ (handleQueryRequest sampleEnv .null (.object [])).result
        ≠ .promise (.rejected NoQueryBackend)
    ∧ (handleQueryRequest sampleEnv (.array [.number 1, .number 2, .number 3])
          (.object [])).calls
        = [.find (.array [.number 1, .number 2, .number 3]) (.object [])]
    ∧ (handleQueryRequest sampleEnv (.array [.number 1, .number 2, .number 3])
          (.object [])).result
        ≠ .promise (.rejected NoQueryBackend) := by
  decide

/-- Claim C2, amended: for every request whose `typeof` is none of `string`, `number`,
`object` and `function` (a boolean, or undefined) and every options value,
`handleQueryRequest` calls nothing and returns, without throwing, a promise rejected
with `NoQueryBackend`. -/
theorem handleQueryRequest_rejects_unknown_typeof (env : Env) (req options : JSValue)
    (h : typeOf req ∉ ["string", "number", "object", "function"]) :
    handleQueryRequest env req options = ⟨[], .promise (.rejected NoQueryBackend)⟩ := by
  cases req with
  | undefined => rfl
  | bool b => rfl
  | null => exact absurd (by decide) h
  | number n => exact absurd (by simp [typeOf]) h
  | string s => exact absurd (by simp [typeOf]) h
  | array items => exact absurd (by simp [typeOf]) h
  | object fields => exact absurd (by simp [typeOf]) h
  | function source => exact absurd (by simp [typeOf]) h

/-- A concrete instance of the theorem above: the request `true`. -/
theorem handleQueryRequest_rejects_unknown_typeof_witness :
    typeOf (.bool true) ∉ ["string", "number", "object", "function"]
    ∧ handleQueryRequest sampleEnv (.bool true) (.object [("limit", .number 10)])
        = ⟨[], .promise (.rejected NoQueryBackend)⟩ :=
  ⟨by decide,
   handleQueryRequest_rejects_unknown_typeof sampleEnv (.bool true)
     (.object [("limit", .number 10)]) (by decide)⟩

/-- Claim C3: for every options mapping, a string goes to `query(s, options)`, a number
to `changes` with `since` overlaid by options (a binding of options wins over the
number), a plain mapping to `find(m, options)` and a function to `f(db, options)`; each
time this is the only call and its promise is returned unchanged. -/
theorem handleQueryRequest_dispatch (env : Env) (options : Fields) :
    (∀ s : String,
      handleQueryRequest env (.string s) (.object options)
        = ⟨[.query (.string s) (.object options)],
           .promise (env.db (.query (.string s) (.object options))).settle⟩)
    ∧ (∀ n : Int,
      handleQueryRequest env (.number n) (.object options)
        = ⟨[.changes (Fields.assign [("since", .number n)] options)],
           .promise (env.db (.changes (Fields.assign [("since", .number n)] options))).settle⟩)
    ∧ (∀ (n : Int) (key : String),
      Fields.lookup key (Fields.assign [("since", .number n)] options)
        = match Fields.lookup key options with
          | some v => some v
          | none => if key = "since" then some (.number n) else none)
    ∧ (∀ m : Fields,
      handleQueryRequest env (.object m) (.object options)
        = ⟨[.find (.object m) (.object options)],
           .promise (env.db (.find (.object m) (.object options))).settle⟩)
    ∧ (∀ f : String,
      handleQueryRequest env (.function f) (.object options)
        = ⟨[.custom f (.object options)], env.fn f (.object options)⟩) := by
  refine ⟨fun s => rfl, fun n => ?_, fun n key => ?_, fun m => rfl, fun f => rfl⟩
  · show getChangedDocs env.db (.number n) (.object options) = _
    simp [getChangedDocs, ownEntries]
  · rw [Fields.lookup_assign]
    cases Fields.lookup key options with
    | some v => rfl
    | none =>
      by_cases hk : key = "since"
      · simp [Fields.lookup, hk]
      · have hk2 : ¬ "since" = key := fun e => hk e.symm
        simp [Fields.lookup, hk, hk2]

/-! ### Queryset and selection -/

theorem foldl_push_eq_append (init items : List JSValue) :
    items.foldl (fun acc row => acc ++ [row]) init = init ++ items := by
  induction items generalizing init with
  | nil => simp
  | cons row rest ih => simp [ih]

/-- Claim C9: when the dispatched query is fulfilled with `rows`, the queryset after
`getQueryset` is exactly the items of `rows`, in order, if `rows` is an array and is
empty otherwise, whatever the queryset held before; and `isLoading` is false. -/
theorem getQueryset_replaces_queryset (env : Env) (store : Store)
    (req options rows : JSValue)
    (h : (handleQueryRequest env req options).result = .promise (.fulfilled rows)) :
    (getQueryset env store req options).store.queryset
        = (match rows with
          | .array items => items
          | _ => [])
    ∧ (getQueryset env store req options).store.isLoading = false := by
  unfold getQueryset
  simp only [h]
  cases rows <;> simp [foldl_push_eq_append]

/-- A concrete instance of the theorem above: a custom strategy resolving to two rows,
on a Store whose queryset held something else. -/
theorem getQueryset_replaces_queryset_witness :
    (handleQueryRequest sampleEnv (.function "(db, options) => rows") .undefined).result
        = .promise (.fulfilled (.array sampleRows))
    ∧ (getQueryset sampleEnv { sampleStore with queryset := [.string "stale"] }
          (.function "(db, options) => rows") .undefined).store.queryset = sampleRows
    ∧ (getQueryset sampleEnv { sampleStore with queryset := [.string "stale"] }
          (.function "(db, options) => rows") .undefined).store.isLoading = false :=
  ⟨rfl,
   getQueryset_replaces_queryset sampleEnv { sampleStore with queryset := [.string "stale"] }
     (.function "(db, options) => rows") .undefined (.array sampleRows) rfl⟩

/-- Called without argument, `unSelectRow` compares the undefined index with the string
`undefined`, finds no row to remove, and leaves the Store as it was. -/
theorem unSelectRow_undefined_eq (store : Store) :
    unSelectRow store .undefined = store := by
  rfl

/-- Claim C8, as the code behaves: with the first row selected, `unSelectRow` called
without argument leaves that row in `selectRows`, which is therefore not empty. -/
theorem unSelectRow_without_index_keeps_selection :
    (selectRow loadedStore (.number 0)).selectRows
        = [.object [("id", .string "test-1"), ("key", .string "test-1")]]
    ∧ (unSelectRow (selectRow loadedStore (.number 0)) .undefined).selectRows
        = [.object [("id", .string "test-1"), ("key", .string "test-1")]]
    ∧ (unSelectRow (selectRow loadedStore (.number 0)) .undefined).selectRows ≠ [] := by
  decide

/-- Claim C10, refuted as stated: two calls `selectRow(0)` on the freshly constructed
Store leave two equal entries in `selectRows`; and once a query has filled the queryset,
the same two calls make its first row appear twice in `selectRows`. -/
theorem selectRow_twice_duplicates :
    sampleStore.selectRows = []
    ∧ (runCalls sampleStore [.selectRow (.number 0), .selectRow (.number 0)]).selectRows
        = [.undefined, .undefined]
    ∧ loadedStore.selectRows = []
    ∧ loadedStore.queryset = sampleRows
    ∧ (runCalls loadedStore [.selectRow (.number 0), .selectRow (.number 0)]).selectRows
        = [.object [("id", .string "test-1"), ("key", .string "test-1")],
           .object [("id", .string "test-1"), ("key", .string "test-1")]]
    ∧ ¬ (runCalls loadedStore [.selectRow (.number 0), .selectRow (.number 0)]).selectRows.Nodup := by
  decide

theorem selectRow_nodup (store : Store) (index : JSValue)
    (hnodup : store.selectRows.Nodup)
    (hnew : store.selectRows.contains (element store.queryset index) = false) :
    (selectRow store index).selectRows.Nodup := by
  have hnot : element store.queryset index ∉ store.selectRows := by
    intro hmem
    have : store.selectRows.contains (element store.queryset index) = true := by
      simpa using hmem
    rw [hnew] at this
    cases this
  show (store.selectRows ++ [element store.queryset index]).Nodup
  rw [List.nodup_append]
  refine ⟨hnodup, List.nodup_singleton _, ?_⟩
  intro a ha hb
  rw [List.mem_singleton] at hb
  subst hb
  exact hnot ha

theorem unSelectRow_nodup (store : Store) (index : JSValue)
    (hnodup : store.selectRows.Nodup) :
    (unSelectRow store index).selectRows.Nodup := by
  unfold unSelectRow
  by_cases hstr : index = .string "undefined"
  · simp [hstr]
  · simp only [hstr, if_false]
    cases truthy (element store.queryset index) with
    | true => exact hnodup.erase _
    | false => exact hnodup

theorem runCalls_nodup (calls : List RowCall) (store : Store)
    (hnodup : store.selectRows.Nodup)
    (hcalls : selectsOnlyUnselected store calls = true) :
    (runCalls store calls).selectRows.Nodup := by
  induction calls generalizing store with
  | nil => exact hnodup
  | cons call rest ih =>
    cases call with
    | selectRow index =>
      simp only [selectsOnlyUnselected, Bool.and_eq_true, Bool.not_eq_true_eq_eq_false,
        Bool.not_eq_eq_eq_not, Bool.not_true] at hcalls
      exact ih (selectRow store index) (selectRow_nodup store index hnodup hcalls.1) hcalls.2
    | unSelectRow index =>
      simp only [selectsOnlyUnselected] at hcalls
      exact ih (unSelectRow store index) (unSelectRow_nodup store index hnodup) hcalls

/-- Claim C10, amended: starting from a Store whose `selectRows` is empty, after every
finite sequence of `selectRow(index)` and `unSelectRow(index)` calls in which `selectRow`
is only called for a row that `selectRows` does not hold at that moment, no entry appears
more than once in `selectRows`. -/
theorem selectRows_nodup_of_guarded_calls (store : Store) (calls : List RowCall)
    (hempty : store.selectRows = [])
    (hcalls : selectsOnlyUnselected store calls = true) :
    (runCalls store calls).selectRows.Nodup :=
  runCalls_nodup calls store (by rw [hempty]; exact List.nodup_nil) hcalls

/-- A concrete instance of the theorem above: select rows 0 and 1, unselect row 0,
select row 0 again. -/
theorem selectRows_nodup_of_guarded_calls_witness :
    loadedStore.selectRows = []
    ∧ selectsOnlyUnselected loadedStore
        [.selectRow (.number 0), .selectRow (.number 1), .unSelectRow (.number 0),
         .selectRow (.number 0)] = true
    ∧ (runCalls loadedStore
        [.selectRow (.number 0), .selectRow (.number 1), .unSelectRow (.number 0),
         .selectRow (.number 0)]).selectRows.Nodup :=
  ⟨by decide, by decide,
   selectRows_nodup_of_guarded_calls loadedStore
     [.selectRow (.number 0), .selectRow (.number 1), .unSelectRow (.number 0),
      .selectRow (.number 0)] (by decide) (by decide)⟩

/-- The one argument that empties `selectRows` is the string `undefined`. -/
theorem unSelectRow_undefined_string_clears (store : Store) :
    (unSelectRow store (.string "undefined")).selectRows = [] := by
  rfl

/-! ### Deleting -/

/-- Claim C7: `deleteDocument(doc)` calls `remove(doc._id, doc._rev)`, and nothing else,
when `doc` is present with `_id` and `_rev`; otherwise it calls nothing, throws
`InvalidArgument` and leaves the Store as it was; and when the call it made is
fulfilled, the current doc of the Store is none afterwards. -/
theorem deleteDocument_contract (env : Env) (store : Store) (doc : Option Fields) :
    ((∃ d, doc = some d ∧ truthy (Fields.get d "_id") = true
          ∧ truthy (Fields.get d "_rev") = true)
      → ∃ d, doc = some d
          ∧ (deleteDocument env store doc).calls
              = [.remove (Fields.get d "_id") (Fields.get d "_rev")])
    ∧ ((¬ ∃ d, doc = some d ∧ truthy (Fields.get d "_id") = true
          ∧ truthy (Fields.get d "_rev") = true)
      → (deleteDocument env store doc).calls = []
          ∧ (deleteDocument env store doc).outcome = .threw InvalidArgument
          ∧ (deleteDocument env store doc).store = store)
    ∧ (∀ call value, call ∈ (deleteDocument env store doc).calls
        → env.db call = .fulfilled value
        → (deleteDocument env store doc).store.doc = none
          ∧ (deleteDocument env store doc).outcome = .promise (.fulfilled .undefined)) := by
  cases doc with
  | none =>
    refine ⟨?_, ?_, ?_⟩
    · rintro ⟨d, hd, -⟩
      cases hd
    · intro _
      exact ⟨rfl, rfl, rfl⟩
    · intro call value hmem _
      simp [deleteDocument] at hmem
  | some d =>
    by_cases hid : truthy (Fields.get d "_id") = true
    · by_cases hrev : truthy (Fields.get d "_rev") = true
      · refine ⟨?_, ?_, ?_⟩
        · intro _
          refine ⟨d, rfl, ?_⟩
          simp only [deleteDocument, hid, hrev]
          cases env.db (.remove (Fields.get d "_id") (Fields.get d "_rev")) <;> simp
        · intro hno
          exact absurd ⟨d, rfl, hid, hrev⟩ hno
        · intro call value hmem hdb
          simp only [deleteDocument, hid, hrev] at hmem ⊢
          cases hreply : env.db (.remove (Fields.get d "_id") (Fields.get d "_rev")) with
          | fulfilled v => simp
          | rejected reason =>
            simp [hreply] at hmem
            rw [hmem, hreply] at hdb
            cases hdb
      · refine ⟨?_, ?_, ?_⟩
        · rintro ⟨e, he, -, hrev2⟩
          cases he
          exact absurd hrev2 hrev
        · intro _
          simp [deleteDocument, hid, hrev]
        · intro call value hmem _
          simp [deleteDocument, hid, hrev] at hmem
    · refine ⟨?_, ?_, ?_⟩
      · rintro ⟨e, he, hid2, -⟩
        cases he
        exact absurd hid2 hid
      · intro _
        simp [deleteDocument, hid]
      · intro call value hmem _
        simp [deleteDocument, hid] at hmem

/-- A concrete instance of the theorem above: deleting the current document of a Store. -/
theorem deleteDocument_contract_witness :
    (∃ d, some [("_id", JSValue.string "test-1"), ("_rev", JSValue.string "1-967a")] = some d
        ∧ (deleteDocument sampleEnv
            { sampleStore with
              doc := some [("_id", .string "test-1"), ("_rev", .string "1-967a")] }
            (some [("_id", .string "test-1"), ("_rev", .string "1-967a")])).calls
          = [.remove (Fields.get d "_id") (Fields.get d "_rev")])
    ∧ (deleteDocument sampleEnv
          { sampleStore with
            doc := some [("_id", .string "test-1"), ("_rev", .string "1-967a")] }
          (some [("_id", .string "test-1"), ("_rev", .string "1-967a")])).store.doc = none
    ∧ (deleteDocument sampleEnv sampleStore (some [])).outcome = .threw InvalidArgument :=
  ⟨(deleteDocument_contract sampleEnv
      { sampleStore with doc := some [("_id", .string "test-1"), ("_rev", .string "1-967a")] }
      (some [("_id", .string "test-1"), ("_rev", .string "1-967a")])).1
      ⟨_, rfl, by decide, by decide⟩,
   ((deleteDocument_contract sampleEnv
      { sampleStore with doc := some [("_id", .string "test-1"), ("_rev", .string "1-967a")] }
      (some [("_id", .string "test-1"), ("_rev", .string "1-967a")])).2.2
      (.remove (.string "test-1") (.string "1-967a")) (.object [("ok", .bool true)])
      (by decide) rfl).1,
   ((deleteDocument_contract sampleEnv sampleStore (some [])).2.1
      (by rintro ⟨d, hd, hid, -⟩; cases hd; exact absurd hid (by decide))).2.1⟩

/-! ### Saving -/

theorem save_calls_of_put (cls : ModelClass) (env : Env) (self : Fields) (out : Fields)
    (h : (save cls env self).calls = [.put out]) :
    out = cls.perform_update (assignIdAndTimestamp cls env self) := by
  simp only [save] at h
  split at h
  · split at h
    · split at h <;> simp at h <;> exact h.symm
    · simp at h
      exact h.symm
  · simp at h

theorem save_of_put_fulfilled (cls : ModelClass) (env : Env) (self : Fields)
    (out : Fields) (res r : JSValue)
    (hcalls : (save cls env self).calls = [.put out])
    (hdb : env.db (.put out) = .fulfilled res)
    (hrev : readRev res = .ok r) :
    (save cls env self).self = Fields.set (assignIdAndTimestamp cls env self) "_rev" r
    ∧ (save cls env self).result = .fulfilled .undefined := by
  have hout := save_calls_of_put cls env self out hcalls
  subst hout
  simp only [save] at hcalls ⊢
  split at hcalls
  · rename_i hv
    simp [hv, hdb, hrev]
  · simp at hcalls

theorem assignIdAndTimestamp_get_other (cls : ModelClass) (env : Env) (self : Fields)
    (key : String) (hid : key ≠ "_id") (hts : key ≠ "timestamp") :
    Fields.get (assignIdAndTimestamp cls env self) key = Fields.get self key := by
  simp only [assignIdAndTimestamp]
  split <;> split <;> simp [Fields.get_set_ne, hid, hts]

theorem assignIdAndTimestamp_get_id (cls : ModelClass) (env : Env) (self : Fields) :
    Fields.get (assignIdAndTimestamp cls env self) "_id"
      = if truthy (Fields.get self "_id") then Fields.get self "_id"
        else .string (generateId cls (env.now 0) self) := by
  have hne : "_id" ≠ "timestamp" := by decide
  have hne2 : "timestamp" ≠ "_id" := by decide
  simp only [assignIdAndTimestamp]
  by_cases h1 : truthy (Fields.get self "_id") = true
  · by_cases h2 : truthy (Fields.get self "timestamp") = true
    · simp [h1, h2]
    · simp only [Bool.not_eq_true] at h2
      simp [h1, h2, Fields.get_set_ne _ _ _ _ hne]
  · simp only [Bool.not_eq_true] at h1
    by_cases h2 : truthy (Fields.get self "timestamp") = true
    · simp [h1, h2, Fields.get_set_ne _ _ _ _ hne2, Fields.get_set_self]
    · simp only [Bool.not_eq_true] at h2
      simp [h1, h2, Fields.get_set_ne _ _ _ _ hne2, Fields.get_set_ne _ _ _ _ hne,
        Fields.get_set_self]

theorem assignIdAndTimestamp_get_timestamp_of_truthy (cls : ModelClass) (env : Env)
    (self : Fields) (h : truthy (Fields.get self "timestamp") = true) :
    Fields.get (assignIdAndTimestamp cls env self) "timestamp" = Fields.get self "timestamp" := by
  have hne : "timestamp" ≠ "_id" := by decide
  simp only [assignIdAndTimestamp]
  by_cases h1 : truthy (Fields.get self "_id") = true
  · simp [h1, h]
  · simp only [Bool.not_eq_true] at h1
    simp [h1, Fields.get_set_ne _ _ _ _ hne, h]

theorem readRev_error (res : JSValue) (e : Err) (h : readRev res = .error e) :
    e = .typeError := by
  cases res <;> simp [readRev] at h <;> exact h.symm

theorem save_result_ne_missingRevision (cls : ModelClass) (env : Env) (self : Fields) :
    (save cls env self).result ≠ .rejected MissingRevision := by
  simp only [save]
  split
  · split
    · split
      · simp
      · rename_i e he
        have := readRev_error _ e he
        subst this
        simp [MissingRevision]
    · simp [MissingRevision]
  · simp only [ne_eq, Settled.rejected.injEq]
    decide

theorem saveAsCurrent_calls (env : Env) (store : Store) (docObj : Fields) :
    (saveAsCurrent env store docObj).calls
      = (save (store.model_cls.getD Model) env docObj).calls := by
  simp only [saveAsCurrent]
  split <;> rfl

theorem saveAsCurrent_not_missingRevision (env : Env) (store : Store) (docObj : Fields) :
    ¬ (saveAsCurrent env store docObj).failsWith MissingRevision := by
  have hsave := save_result_ne_missingRevision (store.model_cls.getD Model) env docObj
  simp only [saveAsCurrent, Run.failsWith]
  split
  · simp
  · rename_i e he
    rw [he] at hsave
    simp only [ne_eq, Settled.rejected.injEq] at hsave
    simp [hsave]

theorem saveAsCurrent_of_put_fulfilled (env : Env) (store : Store) (docObj : Fields)
    (r : JSValue)
    (hput : ∃ out res, (saveAsCurrent env store docObj).calls = [.put out]
      ∧ env.db (.put out) = .fulfilled res ∧ readRev res = .ok r) :
    (saveAsCurrent env store docObj).store.doc
        = some (Fields.set
            (assignIdAndTimestamp (store.model_cls.getD Model) env docObj) "_rev" r)
    ∧ (saveAsCurrent env store docObj).outcome
        = .promise (.fulfilled (.object (Fields.set
            (assignIdAndTimestamp (store.model_cls.getD Model) env docObj) "_rev" r))) := by
  obtain ⟨out, res, hcalls, hdb, hrev⟩ := hput
  rw [saveAsCurrent_calls] at hcalls
  obtain ⟨hself, hres⟩ :=
    save_of_put_fulfilled (store.model_cls.getD Model) env docObj out res r hcalls hdb hrev
  simp only [saveAsCurrent, hres, hself, and_self]

/-! ### Updating -/

/-- Claim C6: for every present `partialFields`, `updateDocument` fails with
`MissingRevision` exactly when the merge of `partialFields` over the fields of the
current doc (over nothing when there is no current doc) lacks `_id` or lacks `_rev`;
and whenever it fails this way it has called nothing and the Store is as it was. -/
theorem updateDocument_missingRevision_iff (env : Env) (store : Store)
    (partialFields : Fields) :
    ((updateDocument env store (some partialFields)).failsWith MissingRevision
      ↔ (truthy (Fields.get (Fields.assign (store.doc.getD []) partialFields) "_id") = false
          ∨ truthy (Fields.get (Fields.assign (store.doc.getD []) partialFields) "_rev")
              = false))
    ∧ ((updateDocument env store (some partialFields)).failsWith MissingRevision
      → (updateDocument env store (some partialFields)).calls = []
        ∧ (updateDocument env store (some partialFields)).store = store) := by
  have hbase : (match store.doc with
      | some current => current
      | none => ([] : Fields)) = store.doc.getD [] := by
    cases store.doc <;> rfl
  by_cases hlack :
      (!truthy (Fields.get (Fields.assign (store.doc.getD []) partialFields) "_id")
        || !truthy (Fields.get (Fields.assign (store.doc.getD []) partialFields) "_rev"))
        = true
  · have hrun : updateDocument env store (some partialFields)
        = ⟨store, [], .threw MissingRevision⟩ := by
      simp only [updateDocument, hbase, hlack, if_true]
    rw [hrun]
    refine ⟨⟨fun _ => ?_, fun _ => Or.inl rfl⟩, fun _ => ⟨rfl, rfl⟩⟩
    simpa using hlack
  · have hrun : updateDocument env store (some partialFields)
        = saveAsCurrent env store (Fields.assign (store.doc.getD []) partialFields) := by
      simp only [updateDocument, hbase, hlack]
      rfl
    rw [hrun]
    have hnot := saveAsCurrent_not_missingRevision env store
      (Fields.assign (store.doc.getD []) partialFields)
    refine ⟨⟨fun h => absurd h hnot, fun h => ?_⟩, fun h => absurd h hnot⟩
    exfalso
    apply hlack
    simpa using h

/-- A concrete instance of the theorem above: `updateDocument({trans_amount: 3333})`
on a Store without current doc. -/
theorem updateDocument_missingRevision_iff_witness :
    (updateDocument sampleEnv sampleStore
        (some [("trans_amount", .number 3333)])).failsWith MissingRevision
    ∧ (updateDocument sampleEnv sampleStore (some [("trans_amount", .number 3333)])).calls = []
    ∧ (updateDocument sampleEnv sampleStore (some [("trans_amount", .number 3333)])).store
        = sampleStore :=
  have hfails := (updateDocument_missingRevision_iff sampleEnv sampleStore
    [("trans_amount", .number 3333)]).1.2 (Or.inl (by decide))
  ⟨hfails,
   (updateDocument_missingRevision_iff sampleEnv sampleStore
    [("trans_amount", .number 3333)]).2 hfails⟩

/-- Claim C5: when the merge of `partialFields` over the fields of the current doc (over
nothing when there is none) contains `_id` and `_rev`, and the `put` that
`updateDocument` issues is fulfilled with revision `r`, then the Store's doc afterwards
has every key of `partialFields` other than `_rev` and `timestamp` at the value given
there, every other key of the previous doc (other than `_rev` and `timestamp`) at its
previous value, `_id` equal to the merged `_id`, and `_rev` equal to `r`. -/
theorem updateDocument_merges (env : Env) (store : Store) (partialFields : Fields)
    (r : JSValue)
    (hid : truthy (Fields.get (Fields.assign (store.doc.getD []) partialFields) "_id") = true)
    (hrev : truthy (Fields.get (Fields.assign (store.doc.getD []) partialFields) "_rev")
      = true)
    (hput : ∃ out res, (updateDocument env store (some partialFields)).calls = [.put out]
      ∧ env.db (.put out) = .fulfilled res ∧ readRev res = .ok r) :
    ∃ newDoc, (updateDocument env store (some partialFields)).store.doc = some newDoc
      ∧ (∀ key v, Fields.lookup key partialFields = some v → key ≠ "_rev"
          → key ≠ "timestamp" → Fields.get newDoc key = v)
      ∧ (∀ key, Fields.lookup key partialFields = none → key ≠ "_rev"
          → key ≠ "timestamp" → Fields.get newDoc key = Fields.get (store.doc.getD []) key)
      ∧ Fields.get newDoc "_id"
          = Fields.get (Fields.assign (store.doc.getD []) partialFields) "_id"
      ∧ Fields.get newDoc "_rev" = r := by
  have hbase : (match store.doc with
      | some current => current
      | none => ([] : Fields)) = store.doc.getD [] := by
    cases store.doc <;> rfl
  have hrun : updateDocument env store (some partialFields)
      = saveAsCurrent env store (Fields.assign (store.doc.getD []) partialFields) := by
    simp only [updateDocument, hbase, hid, hrev]
    rfl
  rw [hrun] at hput ⊢
  obtain ⟨hdoc, -⟩ := saveAsCurrent_of_put_fulfilled env store _ r hput
  refine ⟨_, hdoc, ?_, ?_, ?_, ?_⟩
  · intro key v hv hkrev hkts
    rw [Fields.get_set_ne _ _ _ _ hkrev]
    by_cases hkid : key = "_id"
    · subst hkid
      rw [assignIdAndTimestamp_get_id, hid, if_pos rfl, Fields.get_assign, hv]
    · rw [assignIdAndTimestamp_get_other _ _ _ _ hkid hkts, Fields.get_assign, hv]
  · intro key hnone hkrev hkts
    rw [Fields.get_set_ne _ _ _ _ hkrev]
    by_cases hkid : key = "_id"
    · subst hkid
      rw [assignIdAndTimestamp_get_id, hid, if_pos rfl, Fields.get_assign, hnone]
    · rw [assignIdAndTimestamp_get_other _ _ _ _ hkid hkts, Fields.get_assign, hnone]
  · have hne : "_id" ≠ "_rev" := by decide
    rw [Fields.get_set_ne _ _ _ _ hne, assignIdAndTimestamp_get_id, hid, if_pos rfl]
  · exact Fields.get_set_self _ _ _

/-- A concrete instance of the theorem above: the update of the test of the repository. -/
theorem updateDocument_merges_witness :
    ∃ newDoc, (updateDocument sampleEnv savedStore (some sampleUpdate)).store.doc = some newDoc
      ∧ Fields.get newDoc "trans_amount" = .number 3333
      ∧ Fields.get newDoc "trans_no" = .string "223458"
      ∧ Fields.get newDoc "_id" = .string "test-1500000000000"
      ∧ Fields.get newDoc "_rev" = .string "2-7051c" :=
  match updateDocument_merges sampleEnv savedStore sampleUpdate (.string "2-7051c")
      (by decide) (by decide) ⟨_, _, rfl, rfl, rfl⟩ with
  | ⟨newDoc, hdoc, hgiven, hkept, hid, hrev⟩ =>
    ⟨newDoc, hdoc,
     hgiven "trans_amount" (.number 3333) (by decide) (by decide) (by decide),
     hkept "trans_no" (by decide) (by decide) (by decide),
     hid, hrev⟩

/-! ### Creating -/

/-- Claim C4, refuted as stated: fields without `type` and `_id` that carry a `_rev`, or a
`timestamp` equal to zero, do not keep the supplied value of that field: `_rev` becomes
the revision returned by `put`, and the `timestamp` becomes the reading of the clock. -/
theorem createDocument_replaces_rev_and_zero_timestamp :
    ((createDocument sampleEnv sampleStore
        (some [("trans_no", .string "223458"), ("_rev", .string "3-917f")])).store.doc.map
          (fun doc => Fields.get doc "_rev")) = some (.string "2-7051c")
    ∧ ((createDocument sampleEnv sampleStore
        (some [("trans_no", .string "223458"), ("timestamp", .number 0)])).store.doc.map
          (fun doc => Fields.get doc "timestamp")) = some (.number 1500000000001) := by
  decide

/-- Claim C4, amended: on a Store constructed with a non-empty docType `d`, for fields
without `_id` whose `type` is absent or non-empty, when the `put` that `createDocument`
issues is fulfilled with revision `r`, the Store's doc afterwards has `_rev` equal to
`r`, and every supplied field other than `_rev` and other than an empty `timestamp` at
its supplied value; with `type` absent, `type` is `d` and `_id` is `d`, a dash and the
first reading of the clock; with a non-empty `type`, that type is kept. -/
theorem createDocument_stamps (env : Env) (d : String) (meta : JSValue) (fields : Fields)
    (r : JSValue)
    (hd : d ≠ "")
    (hid : Fields.lookup "_id" fields = none)
    (htype : Fields.lookup "type" fields = none ∨ truthy (Fields.get fields "type") = true)
    (hput : ∃ out res,
      (createDocument env (Store.construct (.inl d) meta) (some fields)).calls = [.put out]
      ∧ env.db (.put out) = .fulfilled res ∧ readRev res = .ok r) :
    ∃ doc,
      (createDocument env (Store.construct (.inl d) meta) (some fields)).store.doc = some doc
      ∧ (Fields.lookup "type" fields = none
          → Fields.get doc "type" = .string d
            ∧ Fields.get doc "_id" = .string (d ++ "-" ++ toString (env.now 0)))
      ∧ (truthy (Fields.get fields "type") = true
          → Fields.get doc "type" = Fields.get fields "type")
      ∧ Fields.get doc "_rev" = r
      ∧ (∀ key v, Fields.lookup key fields = some v → key ≠ "_rev"
          → (key = "timestamp" → truthy v = true) → Fields.get doc key = v) := by
  have hrun : createDocument env (Store.construct (.inl d) meta) (some fields)
      = saveAsCurrent env (Store.construct (.inl d) meta)
          (if !truthy (Fields.get fields "type") then Fields.set fields "type" (.string d)
            else fields) := rfl
  rw [hrun] at hput ⊢
  obtain ⟨hdoc, -⟩ := saveAsCurrent_of_put_fulfilled env _ _ r hput
  have hcls : (Store.construct (.inl d) meta).model_cls.getD Model = Model := rfl
  rw [hcls] at hdoc
  have hidget : Fields.get fields "_id" = .undefined := by
    simp [Fields.get, hid]
  have h1 : "type" ≠ "_rev" := by decide
  have h2 : "type" ≠ "_id" := by decide
  have h3 : "type" ≠ "timestamp" := by decide
  have h4 : "_id" ≠ "_rev" := by decide
  have h5 : "_id" ≠ "type" := by decide
  have h6 : "timestamp" ≠ "type" := by decide
  refine ⟨_, hdoc, ?_, ?_, ?_, ?_⟩
  · intro hnone
    have hfalsy : truthy (Fields.get fields "type") = false := by
      simp [Fields.get, hnone, truthy]
    have hdne : (d != "") = true := by simpa using hd
    simp only [hfalsy, Bool.not_false, if_true]
    constructor
    · rw [Fields.get_set_ne _ _ _ _ h1, assignIdAndTimestamp_get_other _ _ _ _ h2 h3,
        Fields.get_set_self]
    · rw [Fields.get_set_ne _ _ _ _ h4, assignIdAndTimestamp_get_id,
        Fields.get_set_ne _ _ _ _ h5, hidget]
      simp [truthy, generateId, Fields.get_set_self, JSValue.toStr, hdne]
  · intro htruthy
    simp only [htruthy, Bool.not_true]
    rw [Fields.get_set_ne _ _ _ _ h1, assignIdAndTimestamp_get_other _ _ _ _ h2 h3]
    rfl
  · exact Fields.get_set_self _ _ _
  · intro key v hv hkrev hkts
    have hkid : key ≠ "_id" := by
      intro h
      subst h
      rw [hid] at hv
      cases hv
    have hget : Fields.get fields key = v := by simp [Fields.get, hv]
    have hstamped : Fields.get
        (if !truthy (Fields.get fields "type") then Fields.set fields "type" (.string d)
          else fields) key = v := by
      cases htr : truthy (Fields.get fields "type") with
      | true => simpa using hget
      | false =>
        have hktype : key ≠ "type" := by
          intro h
          subst h
          rcases htype with hnone | htrue
          · rw [hnone] at hv
            cases hv
          · rw [htr] at htrue
            cases htrue
        simp only [Bool.not_false, if_true]
        rw [Fields.get_set_ne _ _ _ _ hktype, hget]
    rw [Fields.get_set_ne _ _ _ _ hkrev]
    by_cases hts : key = "timestamp"
    · subst hts
      have htruthy := hkts rfl
      rw [assignIdAndTimestamp_get_timestamp_of_truthy _ _ _ (by rw [hstamped]; exact htruthy),
        hstamped]
    · rw [assignIdAndTimestamp_get_other _ _ _ _ hkid hts, hstamped]

/-- A concrete instance of the theorem above: the creation of the test of the repository. -/
theorem createDocument_stamps_witness :
    ∃ doc, (createDocument sampleEnv sampleStore (some sampleFields)).store.doc = some doc
      ∧ Fields.get doc "type" = .string "test"
      ∧ Fields.get doc "_id" = .string ("test" ++ "-" ++ toString (sampleEnv.now 0))
      ∧ Fields.get doc "_rev" = .string "1-967a"
      ∧ Fields.get doc "trans_no" = .string "223458"
      ∧ Fields.get doc "trans_amount" = .number 13460 :=
  match createDocument_stamps sampleEnv "test" .null sampleFields (.string "1-967a")
      (by decide) (by decide) (Or.inl (by decide)) ⟨_, _, rfl, rfl, rfl⟩ with
  | ⟨doc, hdoc, habsent, _, hrev, hgiven⟩ =>
    ⟨doc, hdoc, (habsent (by decide)).1, (habsent (by decide)).2, hrev,
     hgiven "trans_no" (.string "223458") (by decide) (by decide) (by decide),
     hgiven "trans_amount" (.number 13460) (by decide) (by decide) (by decide)⟩

end CouchdbMobx
